import Mathlib

set_option autoImplicit false

namespace YoutubeSummary

/-- One timed caption unit from the video source: `{ text, offset }`, with the
offset in milliseconds (the elements of `transcripts` in the handler). -/
structure TranscriptLine where
  text : String
  offset : Nat
deriving Repr, DecidableEq

/-- Model of JavaScript `String.prototype.startsWith`, computed on the
character list so that concrete instances reduce. -/
def jsStartsWith (s pre : String) : Bool :=
  pre.data.isPrefixOf s.data

/-- Model of JavaScript `String.prototype.trim`: strip leading and trailing
whitespace. -/
def jsTrim (s : String) : String :=
  String.mk (((s.data.dropWhile Char.isWhitespace).reverse.dropWhile Char.isWhitespace).reverse)

/-- The test `transcript.text.trim().startsWith('-')` of `groupBySentences`
(line 86 of the handler). -/
def isDashLine (l : TranscriptLine) : Bool :=
  jsStartsWith (jsTrim l.text) "-"

/-- The `forEach` accumulation loop of `groupBySentences` (lines 85-93): when a
line's trimmed text starts with a dash and the current group is non-empty, the
current group is flushed and a fresh one started; in every case the line is then
pushed onto the current group. The match on `[]` is the trailing flush of the
final group (lines 96-98). -/
def groupLoop : List TranscriptLine → List (List TranscriptLine) →
    List TranscriptLine → List (List TranscriptLine)
  | [], acc, cur => if cur.length > 0 then acc ++ [cur] else acc
  | t :: ts, acc, cur =>
    if isDashLine t then
      if cur.length > 0 then
        groupLoop ts (acc ++ [cur]) [t]
      else
        groupLoop ts acc (cur ++ [t])
    else
      groupLoop ts acc (cur ++ [t])

/-- The intermediate `groupedTranscripts` value of `groupBySentences`. -/
def rawGroups (t : List TranscriptLine) : List (List TranscriptLine) :=
  groupLoop t [] []

/-- The `reduce` of lines 101-111: index 0 yields `{...item}` unchanged; every
later item extends the accumulator's text by a space-joined append, keeping the
first line's offset. The `{}` initial accumulator is only reachable for an
empty group, which the loop never produces; it is modelled by a zero line. -/
def mergeGroup : List TranscriptLine → TranscriptLine
  | [] => { text := "", offset := 0 }
  | h :: tl => tl.foldl (fun acc item => { acc with text := acc.text ++ " " ++ item.text }) h

/-- The function `groupBySentences` (lines 81-113 of the handler). -/
def groupBySentences (t : List TranscriptLine) : List TranscriptLine :=
  (rawGroups t).map mergeGroup

/-- Model of `each.text?.replace(/^- /, '')` (line 123): remove the exact
two-character prefix `"- "` when present, otherwise leave the text alone. -/
def stripLeadingDash (s : String) : String :=
  if jsStartsWith s "- " then String.mk (s.data.drop 2) else s

/-- The rendered seconds value `Math.ceil(offset / 1000)` for a natural-number
offset in milliseconds. -/
def ceilSeconds (offset : Nat) : Nat :=
  (offset + 999) / 1000

/-- One rendered segment: the two `map`s of lines 122-126 composed, producing
`[<seconds>s] <stripped text>`. -/
def formatSegment (seg : TranscriptLine) : String :=
  "[" ++ toString (ceilSeconds seg.offset) ++ "s] " ++ stripLeadingDash seg.text

/-- The assembled transcript `text` (lines 121-127). -/
def assembleText (t : List TranscriptLine) : String :=
  String.intercalate "\n" ((groupBySentences t).map formatSegment)

/-- Space-join a list of strings, used to state what the merged text of a
group is. -/
def spaceJoin : List String → String
  | [] => ""
  | [x] => x
  | x :: y :: xs => x ++ " " ++ spaceJoin (y :: xs)

/-- Spec reading of the grouping rule (spec section 4.2), written from the
spec's words for comparison with `groupBySentences` from the source: scan
lines in order and start a new group at every line whose trimmed text begins
with the dash marker, except that the very first line never starts a second
group (it opens the first group); every other line joins the current group. -/
def specSplit : List TranscriptLine → List (List TranscriptLine)
  | [] => []
  | [a] => [[a]]
  | a :: b :: rest =>
    if isDashLine b then
      [a] :: specSplit (b :: rest)
    else
      match specSplit (b :: rest) with
      | [] => [[a]]
      | g :: gs => (a :: g) :: gs

/-- Spec reading of segment assembly: a segment's text is the space-join of
its lines' texts, and its offset is the first line's offset. -/
def specMerge (g : List TranscriptLine) : TranscriptLine :=
  { text := spaceJoin (g.map TranscriptLine.text),
    offset := (g.headD { text := "", offset := 0 }).offset }

/-- Proof-level helper describing how an open current group of the loop is
glued onto the spec-side split of the remaining input. -/
def glue (cur : List TranscriptLine) : List TranscriptLine → List (List TranscriptLine)
  | [] => [cur]
  | b :: ts =>
    if isDashLine b then
      cur :: specSplit (b :: ts)
    else
      match specSplit (b :: ts) with
      | [] => [cur]
      | g :: gs => (cur ++ g) :: gs

/-- Split a character list into space-separated words: a character-level model
of whitespace tokenization. Words never contain a space character. -/
def splitWords : List Char → List (List Char)
  | [] => [[]]
  | c :: cs =>
    if c = ' ' then [] :: splitWords cs
    else
      match splitWords cs with
      | [] => [[c]]
      | w :: ws => (c :: w) :: ws

/-- Rejoin words with single spaces; inverse of `splitWords` on word lists
whose words are space-free. -/
def joinWords : List (List Char) → List Char
  | [] => []
  | [w] => w
  | w :: ws => w ++ ' ' :: joinWords ws

/-- The number of tokens of a text under the word-level tokenization model. -/
def tokenCount (s : String) : Nat :=
  (splitWords s.data).length

/-- Cut a list into consecutive chunks of at most `n + 1` elements. -/
def chunkList {α : Type} (n : Nat) (l : List α) : List (List α) :=
  match l with
  | [] => []
  | a :: tl => (a :: tl.take n) :: chunkList n (tl.drop n)
termination_by l.length
decreasing_by simp only [List.length_cons, List.length_drop]; omega

/-- Modelled from the spec: `splitTextByToken` from
`@chaindesk/lib/split-text-by-token` is not part of the repository snapshot.
Per spec section 4.3 it splits the assembled text into one or more chunks each
bounded by the token budget `chunkSize`, and produces the text unchanged as a
single chunk when it already fits within the budget. Tokens are modelled as
space-separated words. -/
def splitTextByToken (chunkSize : Nat) (text : String) : List String :=
  if tokenCount text ≤ chunkSize then [text]
  else (chunkList (chunkSize - 1) (splitWords text.data)).map (fun c => String.mk (joinWords c))

/-- The token budget `ModelConfig[modelName].maxTokens * 0.7` of line 132,
with `0.7 · m` modelled as `7 m / 10` rounded down. -/
def tokenBudget (maxTokens : Nat) : Nat :=
  7 * maxTokens / 10

/-- The summary payload's `output` column: the video snippet metadata plus the
parsed summary data stored under the `en` key (lines 179-186). -/
structure SummaryOutput where
  metadata : String
  en : String
deriving Repr, DecidableEq

/-- A persisted `lLMTaskOutput` row as used by this endpoint. -/
structure SummaryRecord where
  id : String
  externalId : String
  type : String
  output : SummaryOutput
  usage : String
deriving Repr, DecidableEq

/-- The persistent store, modelled as its list of rows. -/
abbrev Store := List SummaryRecord

/-- The lookup `prisma.lLMTaskOutput.findUnique` on the composite unique key
`(type = youtube_summary, externalId = videoId)` (lines 67-74). -/
def findByExternalId (store : Store) (vid : String) : Option SummaryRecord :=
  store.find? (fun r => r.type == "youtube_summary" && r.externalId == vid)

/-- The write `prisma.lLMTaskOutput.upsert` keyed by `id` (lines 190-196): replace the
row carrying this id when one exists, else create the row. -/
def upsertById (store : Store) (id : String) (payload : SummaryRecord) : Store :=
  if store.any (fun r => r.id == id) then
    store.map (fun r => if r.id == id then payload else r)
  else
    store ++ [payload]

/-- JavaScript `a || b` for `found?.id || cuid()` (line 173): the left operand
is kept unless it is falsy, that is absent or the empty string. -/
def jsOrElse (a : Option String) (b : String) : String :=
  match a with
  | none => b
  | some s => if s = "" then b else s

/-- Externally observable events, listed in the order the handler performs
them; the LLM call event records the exact prompt text it was given. -/
inductive Ev where
  | snippetFetch
  | transcriptFetch
  | rateLimitCheck
  | llmCall (input : String)
  | upsert
deriving Repr, DecidableEq

/-- The environment of external services: video id extraction, the video
snippet fetch (taking the possibly-absent id, since the source calls it before
the id check), the transcript fetch, the rate limiter applied to its duration
and limit arguments, the LLM completion call returning the raw tool-call
arguments and the usage blob, the schema parse of those arguments, the fresh
`cuid()` value, and the `ModelConfig[gpt_4_turbo].maxTokens` constant. -/
structure Env where
  extractVideoId : String → Option String
  getVideoSnippetById : Option String → Except String String
  transcribeVideo : String → Except String (List TranscriptLine)
  rateLimit : Nat → Nat → Bool
  chatModelCall : String → Except String (String × String)
  zodParseJSON : String → Except String String
  cuid : String
  maxTokens : Nat

/-- A POST request: the parsed body url, the `?refresh=true` query flag, and
whether the session carries the SUPERADMIN role. -/
structure Req where
  url : String
  refreshQuery : Bool
  superadmin : Bool

/-- Outcome of one invocation: the returned record or thrown error, the
external events in order, and the store after the call. -/
structure FlowResult where
  result : Except String SummaryRecord
  events : List Ev
  store : Store
deriving Repr

/-- The `[chunkedText]` destructuring of lines 130-133: the first chunk of the
assembled transcript text split under the token budget. -/
def chunkOf (env : Env) (transcripts : List TranscriptLine) : String :=
  (splitTextByToken (tokenBudget env.maxTokens) (assembleText transcripts)).headD ""

/-- The summarize-and-persist branch of `createYoutubeSummary` (lines 79-198),
entered when no cached record exists or the privileged refresh flag is set;
`found` is the cache lookup result and `snippet` the already-fetched video
snippet. -/
def summarizePath (env : Env) (req : Req) (store : Store) (vid snippet : String)
    (found : Option SummaryRecord) : FlowResult :=
  match env.transcribeVideo req.url with
  | .error e => ⟨.error e, [.snippetFetch, .transcriptFetch], store⟩
  | .ok transcripts =>
    let chunkedText := chunkOf env transcripts
    if env.rateLimit 60 2 then
      match env.chatModelCall chunkedText with
      | .error e =>
        ⟨.error e, [.snippetFetch, .transcriptFetch, .rateLimitCheck, .llmCall chunkedText], store⟩
      | .ok (rawArgs, usage) =>
        match env.zodParseJSON rawArgs with
        | .error e =>
          ⟨.error e, [.snippetFetch, .transcriptFetch, .rateLimitCheck, .llmCall chunkedText], store⟩
        | .ok data =>
          let id := jsOrElse (found.map SummaryRecord.id) env.cuid
          let payload : SummaryRecord :=
            { id := id, externalId := vid, type := "youtube_summary",
              output := { metadata := snippet, en := data }, usage := usage }
          ⟨.ok payload,
            [.snippetFetch, .transcriptFetch, .rateLimitCheck, .llmCall chunkedText, .upsert],
            upsertById store id payload⟩
    else
      ⟨.error "Rate limit exceeded", [.snippetFetch, .transcriptFetch, .rateLimitCheck], store⟩

/-- The handler `createYoutubeSummary` (lines 49-200): extract the video id, fetch the
video snippet (before the id validation check, exactly as in the source),
compute the privileged refresh flag, validate the id, look up a cached record
by `(type, externalId)`, then either return the cached record unchanged or run
the summarization branch. -/
def createYoutubeSummary (env : Env) (req : Req) (store : Store) : FlowResult :=
  let videoId := env.extractVideoId req.url
  match env.getVideoSnippetById videoId with
  | .error e => ⟨.error e, [.snippetFetch], store⟩
  | .ok snippet =>
    let refresh := req.refreshQuery && req.superadmin
    match videoId with
    | none => ⟨.error "The url is not a valid youtube video.", [.snippetFetch], store⟩
    | some vid =>
      match findByExternalId store vid with
      | some found =>
        if refresh then summarizePath env req store vid snippet (some found)
        else ⟨.ok found, [.snippetFetch], store⟩
      | none => summarizePath env req store vid snippet none

/-- A concrete sample environment for evaluating the flow model at specific
inputs; scenarios override individual fields. -/
def baseEnv : Env where
  extractVideoId := fun _ => some "vid123"
  getVideoSnippetById := fun _ => Except.ok "snippet"
  transcribeVideo := fun _ =>
    Except.ok [⟨"- Intro", 0⟩, ⟨"more", 1200⟩, ⟨"- Next part", 5000⟩]
  rateLimit := fun _ _ => true
  chatModelCall := fun _ => Except.ok ("args", "usage")
  zodParseJSON := fun _ => Except.ok "summary"
  cuid := "fresh-id"
  maxTokens := 100

/-- A concrete sample request. -/
def baseReq : Req where
  url := "https://youtu.be/vid123"
  refreshQuery := false
  superadmin := false

/-- A concrete cached Summary Record for the sample video id. -/
def cachedRec : SummaryRecord where
  id := "old-id"
  externalId := "vid123"
  type := "youtube_summary"
  output := { metadata := "old-meta", en := "old-summary" }
  usage := "old-usage"

/-! Lemmas about the grouping loop. -/

theorem groupLoop_acc (ts : List TranscriptLine) :
    ∀ acc cur, groupLoop ts acc cur = acc ++ groupLoop ts [] cur := by
  induction ts with
  | nil =>
    intro acc cur
    simp only [groupLoop]
    by_cases h : cur.length > 0
    · rw [if_pos h, if_pos h, List.nil_append]
    · rw [if_neg h, if_neg h, List.append_nil]
  | cons t ts ih =>
    intro acc cur
    simp only [groupLoop]
    by_cases hd : isDashLine t = true
    · rw [if_pos hd, if_pos hd]
      by_cases hc : cur.length > 0
      · rw [if_pos hc, if_pos hc, ih (acc ++ [cur]) [t], ih ([] ++ [cur]) [t]]
        simp [List.append_assoc]
      · rw [if_neg hc, if_neg hc, ih acc (cur ++ [t])]
    · rw [if_neg hd, if_neg hd, ih acc (cur ++ [t])]

theorem specSplit_cons_ne_nil (a : TranscriptLine) (ts : List TranscriptLine) :
    specSplit (a :: ts) ≠ [] := by
  cases ts with
  | nil => simp [specSplit]
  | cons b ts' =>
    by_cases hd : isDashLine b = true
    · simp [specSplit, hd]
    · rcases h : specSplit (b :: ts') with _ | ⟨g, gs⟩ <;> simp [specSplit, hd, h]

theorem specSplit_cons_eq_glue (a : TranscriptLine) (ts : List TranscriptLine) :
    specSplit (a :: ts) = glue [a] ts := by
  cases ts with
  | nil => rfl
  | cons b ts =>
    by_cases hd : isDashLine b = true
    · simp [specSplit, glue, hd]
    · rcases h : specSplit (b :: ts) with _ | ⟨g, gs⟩ <;>
        simp [specSplit, glue, h, hd]

theorem glue_snoc (cur : List TranscriptLine) (b : TranscriptLine)
    (ts : List TranscriptLine) (hd : ¬ isDashLine b = true) :
    glue cur (b :: ts) = glue (cur ++ [b]) ts := by
  cases ts with
  | nil => simp [glue, specSplit, hd]
  | cons c ts' =>
    by_cases hc : isDashLine c = true
    · simp [glue, specSplit, hd, hc]
    · rcases h : specSplit (c :: ts') with _ | ⟨g', gs'⟩
      · exact absurd h (specSplit_cons_ne_nil c ts')
      · simp [glue, specSplit, h, hd, hc, List.append_assoc]

theorem groupLoop_eq_glue (ts : List TranscriptLine) :
    ∀ cur, cur ≠ [] → groupLoop ts [] cur = glue cur ts := by
  induction ts with
  | nil =>
    intro cur hc
    have h : cur.length > 0 := List.length_pos.mpr hc
    simp [groupLoop, glue, h]
  | cons b ts ih =>
    intro cur hc
    have hlen : cur.length > 0 := List.length_pos.mpr hc
    by_cases hd : isDashLine b = true
    · simp only [groupLoop, if_pos hd, if_pos hlen]
      rw [groupLoop_acc ts ([] ++ [cur]) [b], ih [b] (by simp),
        ← specSplit_cons_eq_glue b ts]
      simp [glue, hd]
    · simp only [groupLoop, if_neg hd]
      rw [ih (cur ++ [b]) (by simp), glue_snoc cur b ts hd]

theorem rawGroups_eq_specSplit (t : List TranscriptLine) :
    rawGroups t = specSplit t := by
  cases t with
  | nil => rfl
  | cons a ts =>
    have h1 : groupLoop ts [] [a] = glue [a] ts := groupLoop_eq_glue ts [a] (by simp)
    by_cases hd : isDashLine a = true <;>
      simp [rawGroups, groupLoop, hd, h1, specSplit_cons_eq_glue]

theorem specSplit_flatten (t : List TranscriptLine) : (specSplit t).flatten = t := by
  induction t with
  | nil => rfl
  | cons a ts ih =>
    cases ts with
    | nil => simp [specSplit]
    | cons b ts' =>
      by_cases hd : isDashLine b = true
      · simp [specSplit, hd, ih]
      · rcases h : specSplit (b :: ts') with _ | ⟨g, gs⟩
        · exact absurd h (specSplit_cons_ne_nil b ts')
        · rw [h] at ih
          simp only [specSplit, hd, if_neg, h]
          simp_all

theorem specSplit_mem_ne_nil (t : List TranscriptLine) :
    ∀ g ∈ specSplit t, g ≠ [] := by
  induction t with
  | nil => intro g hg; simp [specSplit] at hg
  | cons a ts ih =>
    intro g hg
    cases ts with
    | nil =>
      simp [specSplit] at hg
      simp [hg]
    | cons b ts' =>
      by_cases hd : isDashLine b = true
      · simp only [specSplit, if_pos hd, List.mem_cons] at hg
        rcases hg with rfl | hg
        · simp
        · exact ih g hg
      · rcases h : specSplit (b :: ts') with _ | ⟨g0, gs0⟩
        · exact absurd h (specSplit_cons_ne_nil b ts')
        · rw [h] at ih
          simp only [specSplit, h, if_neg hd, List.mem_cons] at hg
          rcases hg with rfl | hg
          · simp
          · exact ih g (List.mem_cons_of_mem g0 hg)

theorem spaceJoin_glue (a b : String) (l : List String) :
    spaceJoin ((a ++ " " ++ b) :: l) = a ++ " " ++ spaceJoin (b :: l) := by
  cases l with
  | nil => rfl
  | cons c l' => simp [spaceJoin, String.append_assoc]

theorem mergeGroup_cons (h : TranscriptLine) (tl : List TranscriptLine) :
    mergeGroup (h :: tl) =
      { text := spaceJoin ((h :: tl).map TranscriptLine.text), offset := h.offset } := by
  induction tl generalizing h with
  | nil => obtain ⟨tx, off⟩ := h; rfl
  | cons i tl ih =>
    have hstep : mergeGroup (h :: i :: tl) =
        mergeGroup ({ text := h.text ++ " " ++ i.text, offset := h.offset } :: tl) := rfl
    rw [hstep, ih]
    simp [spaceJoin_glue, spaceJoin]

theorem mergeGroup_eq_specMerge (g : List TranscriptLine) (hg : g ≠ []) :
    mergeGroup g = specMerge g := by
  cases g with
  | nil => exact absurd rfl hg
  | cons h tl => rw [mergeGroup_cons]; rfl

theorem spaceJoin_append (l1 l2 : List String) (h1 : l1 ≠ []) (h2 : l2 ≠ []) :
    spaceJoin (l1 ++ l2) = spaceJoin l1 ++ " " ++ spaceJoin l2 := by
  induction l1 with
  | nil => exact absurd rfl h1
  | cons x l1' ih =>
    cases l1' with
    | nil =>
      cases l2 with
      | nil => exact absurd rfl h2
      | cons y l2' => rfl
    | cons z l1'' =>
      have : spaceJoin ((x :: z :: l1'') ++ l2) = x ++ " " ++ spaceJoin ((z :: l1'') ++ l2) := by
        cases l2 <;> rfl
      rw [this, ih (by simp)]
      simp [spaceJoin, String.append_assoc]

theorem spaceJoin_flatten (gss : List (List String)) (h : ∀ g ∈ gss, g ≠ []) :
    spaceJoin (gss.map spaceJoin) = spaceJoin gss.flatten := by
  induction gss with
  | nil => rfl
  | cons g gss' ih =>
    cases gss' with
    | nil => simp [spaceJoin]
    | cons g2 gss'' =>
      have hg : g ≠ [] := h g (by simp)
      have hg2 : g2 ≠ [] := h g2 (by simp)
      have hrest : ∀ x ∈ g2 :: gss'', x ≠ [] := by
        intro x hx
        exact h x (List.mem_cons_of_mem g hx)
      have hflat : (g2 :: gss'').flatten ≠ [] := by
        cases g2 with
        | nil => exact absurd rfl hg2
        | cons y ys => simp [List.flatten]
      have hmap : spaceJoin (List.map spaceJoin (g :: g2 :: gss'')) =
          spaceJoin g ++ " " ++ spaceJoin (List.map spaceJoin (g2 :: gss'')) := rfl
      have hrhs : (g :: g2 :: gss'').flatten = g ++ (g2 :: gss'').flatten := by simp
      rw [hmap, ih hrest, hrhs, spaceJoin_append g (g2 :: gss'').flatten hg hflat]

theorem groupBySentences_eq_spec (t : List TranscriptLine) :
    groupBySentences t = (specSplit t).map specMerge := by
  unfold groupBySentences
  rw [rawGroups_eq_specSplit]
  apply List.map_congr_left
  intro g hg
  exact mergeGroup_eq_specMerge g (specSplit_mem_ne_nil t g hg)

/-- C3: `groupBySentences` scans the lines in order, starts a new group exactly
at a line whose trimmed text begins with a dash while the current group is
non-empty (so the very first line never starts a second group), space-joins the
texts of a group, keeps the first line's offset as the group's offset, flushes
the final group at end of input, and maps the empty input to the empty output:
it coincides with the spec-side description `specSplit`/`specMerge`, and sends
`[]` to `[]`. -/
theorem groupBySentences_follows_spec (t : List TranscriptLine) :
    groupBySentences t = (specSplit t).map specMerge ∧
      groupBySentences ([] : List TranscriptLine) = [] :=
  ⟨groupBySentences_eq_spec t, rfl⟩

/-- C4: the grouped segments partition the input without reordering:
concatenating the raw groups reproduces the input lines, no group is empty
(each input line contributes to exactly one segment), and the space-join of all
segment texts reproduces the space-join of the original line texts in order. -/
theorem groupBySentences_partition (t : List TranscriptLine) :
    (rawGroups t).flatten = t ∧
      (rawGroups t).all (fun g => !g.isEmpty) = true ∧
      spaceJoin ((groupBySentences t).map TranscriptLine.text) =
        spaceJoin (t.map TranscriptLine.text) := by
  refine ⟨?_, ?_, ?_⟩
  · rw [rawGroups_eq_specSplit]
    exact specSplit_flatten t
  · rw [rawGroups_eq_specSplit, List.all_eq_true]
    intro g hg
    have := specSplit_mem_ne_nil t g hg
    simp [List.isEmpty_iff, this]
  · rw [groupBySentences_eq_spec]
    have h2 : ((specSplit t).map specMerge).map TranscriptLine.text =
        ((specSplit t).map (List.map TranscriptLine.text)).map spaceJoin := by
      simp only [List.map_map]
      apply List.map_congr_left
      intro g hg
      rfl
    rw [h2, spaceJoin_flatten]
    · rw [← List.map_flatten, specSplit_flatten]
    · intro g' hg'
      obtain ⟨g, hgmem, rfl⟩ := List.mem_map.mp hg'
      have := specSplit_mem_ne_nil t g hgmem
      simp [this]

/-- C5: each grouped segment is rendered as `[<seconds>s] <text>`, where the
seconds value is the millisecond offset divided by 1000 and rounded up to a
whole second (characterized by the two inequalities), and the spec's concrete
example assembles to exactly `"[0s] Intro more\n[5s] Next part"`. -/
theorem formatting_rounds_up_and_example :
    (∀ seg : TranscriptLine,
      formatSegment seg =
        "[" ++ toString (ceilSeconds seg.offset) ++ "s] " ++ stripLeadingDash seg.text ∧
      seg.offset ≤ 1000 * ceilSeconds seg.offset ∧
      1000 * ceilSeconds seg.offset < seg.offset + 1000) ∧
    assembleText [⟨"- Intro", 0⟩, ⟨"more", 1200⟩, ⟨"- Next part", 5000⟩] =
      "[0s] Intro more\n[5s] Next part" := by
  constructor
  · intro seg
    have h1 := Nat.div_add_mod (seg.offset + 999) 1000
    have h2 : (seg.offset + 999) % 1000 < 1000 := Nat.mod_lt _ (by norm_num)
    exact ⟨rfl, by unfold ceilSeconds; omega, by unfold ceilSeconds; omega⟩
  · decide

/-- C10: only the exact two-character prefix `"- "` is stripped during
formatting. A line whose trimmed text begins with a dash but whose raw text
does not start with `"- "` still opens a new group, because the grouping
decision trims the text first, yet its dash marker survives into the rendered
output text. -/
theorem dash_marker_survives (l0 l : TranscriptLine)
    (h1 : jsStartsWith (jsTrim l.text) "-" = true)
    (h2 : jsStartsWith l.text "- " = false) :
    groupBySentences [l0, l] = [l0, l] ∧
      stripLeadingDash l.text = l.text ∧
      formatSegment l = "[" ++ toString (ceilSeconds l.offset) ++ "s] " ++ l.text := by
  have hd : isDashLine l = true := h1
  refine ⟨?_, ?_, ?_⟩
  · by_cases hd0 : isDashLine l0 = true <;>
      simp [groupBySentences, rawGroups, groupLoop, hd0, hd, mergeGroup]
  · simp [stripLeadingDash, h2]
  · simp [formatSegment, stripLeadingDash, h2]

theorem dash_marker_survives_witness :
    jsStartsWith (jsTrim "-Intro") "-" = true ∧
      jsStartsWith "-Intro" "- " = false ∧
      (groupBySentences [⟨"a", 0⟩, ⟨"-Intro", 4500⟩] =
          [⟨"a", 0⟩, ⟨"-Intro", 4500⟩] ∧
        stripLeadingDash "-Intro" = "-Intro" ∧
        formatSegment ⟨"-Intro", 4500⟩ =
          "[" ++ toString (ceilSeconds 4500) ++ "s] " ++ "-Intro") :=
  ⟨by decide, by decide,
    dash_marker_survives ⟨"a", 0⟩ ⟨"-Intro", 4500⟩ (by decide) (by decide)⟩

/-! Case analysis of the request flow. -/

theorem summarizePath_cases (env : Env) (req : Req) (store : Store)
    (vid snip : String) (found : Option SummaryRecord) :
    (∃ e, summarizePath env req store vid snip found =
        ⟨.error e, [.snippetFetch, .transcriptFetch], store⟩) ∨
    (env.rateLimit 60 2 = false ∧
      summarizePath env req store vid snip found =
        ⟨.error "Rate limit exceeded",
          [.snippetFetch, .transcriptFetch, .rateLimitCheck], store⟩) ∨
    (∃ ts e, env.transcribeVideo req.url = .ok ts ∧ env.rateLimit 60 2 = true ∧
      summarizePath env req store vid snip found =
        ⟨.error e,
          [.snippetFetch, .transcriptFetch, .rateLimitCheck, .llmCall (chunkOf env ts)],
          store⟩) ∨
    (∃ ts payload, env.transcribeVideo req.url = .ok ts ∧ env.rateLimit 60 2 = true ∧
      summarizePath env req store vid snip found =
        ⟨.ok payload,
          [.snippetFetch, .transcriptFetch, .rateLimitCheck, .llmCall (chunkOf env ts),
            .upsert],
          upsertById store payload.id payload⟩) := by
  cases htr : env.transcribeVideo req.url with
  | error e => exact Or.inl ⟨e, by simp [summarizePath, htr]⟩
  | ok ts =>
    cases hrl : env.rateLimit 60 2 with
    | false => exact Or.inr (Or.inl ⟨rfl, by simp [summarizePath, htr, hrl]⟩)
    | true =>
      cases hllm : env.chatModelCall (chunkOf env ts) with
      | error e =>
        exact Or.inr (Or.inr (Or.inl
          ⟨ts, e, rfl, rfl, by simp [summarizePath, htr, hrl, hllm]⟩))
      | ok pr =>
        obtain ⟨rawArgs, usage⟩ := pr
        cases hp : env.zodParseJSON rawArgs with
        | error e =>
          exact Or.inr (Or.inr (Or.inl
            ⟨ts, e, rfl, rfl, by simp [summarizePath, htr, hrl, hllm, hp]⟩))
        | ok data =>
          refine Or.inr (Or.inr (Or.inr ⟨ts,
            ⟨jsOrElse (found.map SummaryRecord.id) env.cuid, vid, "youtube_summary",
              ⟨snip, data⟩, usage⟩, rfl, rfl, ?_⟩))
          simp [summarizePath, htr, hrl, hllm, hp]

theorem createYoutubeSummary_cases (env : Env) (req : Req) (store : Store) :
    (∃ res, createYoutubeSummary env req store = ⟨res, [.snippetFetch], store⟩) ∨
    (∃ vid snip found, createYoutubeSummary env req store =
        summarizePath env req store vid snip found) := by
  cases h1 : env.getVideoSnippetById (env.extractVideoId req.url) with
  | error e => exact Or.inl ⟨.error e, by simp [createYoutubeSummary, h1]⟩
  | ok snip =>
    cases h2 : env.extractVideoId req.url with
    | none =>
      rw [h2] at h1
      exact Or.inl ⟨.error "The url is not a valid youtube video.",
        by simp [createYoutubeSummary, h1, h2]⟩
    | some vid =>
      rw [h2] at h1
      cases h3 : findByExternalId store vid with
      | some found =>
        cases h4 : req.refreshQuery && req.superadmin with
        | true =>
          exact Or.inr ⟨vid, snip, some found,
            by simp [createYoutubeSummary, h1, h2, h3, h4]⟩
        | false =>
          exact Or.inl ⟨.ok found, by simp [createYoutubeSummary, h1, h2, h3, h4]⟩
      | none =>
        exact Or.inr ⟨vid, snip, none, by simp [createYoutubeSummary, h1, h2, h3]⟩

/-- C1 (amended): when the body URL yields no parseable video id the handler
fails with the input-validation error, leaves the store untouched and performs
neither the summarization call nor any write — but the video-snippet fetch is
still performed before the validation check, so the events are exactly the
snippet fetch. -/
theorem invalid_url_validation_failure (env : Env) (req : Req) (store : Store)
    (snip : String)
    (hid : env.extractVideoId req.url = none)
    (hsnip : env.getVideoSnippetById none = .ok snip) :
    (createYoutubeSummary env req store).result =
        .error "The url is not a valid youtube video." ∧
      (createYoutubeSummary env req store).store = store ∧
      (createYoutubeSummary env req store).events = [Ev.snippetFetch] := by
  have hrun : createYoutubeSummary env req store =
      ⟨.error "The url is not a valid youtube video.", [Ev.snippetFetch], store⟩ := by
    simp [createYoutubeSummary, hid, hsnip]
  rw [hrun]
  exact ⟨rfl, rfl, rfl⟩

theorem invalid_url_validation_failure_witness :
    ({ baseEnv with extractVideoId := fun _ => none } : Env).extractVideoId baseReq.url
        = none ∧
      ({ baseEnv with extractVideoId := fun _ => none } : Env).getVideoSnippetById none
        = .ok "snippet" ∧
      ((createYoutubeSummary { baseEnv with extractVideoId := fun _ => none } baseReq
            []).result = .error "The url is not a valid youtube video." ∧
        (createYoutubeSummary { baseEnv with extractVideoId := fun _ => none } baseReq
            []).store = [] ∧
        (createYoutubeSummary { baseEnv with extractVideoId := fun _ => none } baseReq
            []).events = [Ev.snippetFetch]) :=
  ⟨rfl, rfl,
    invalid_url_validation_failure { baseEnv with extractVideoId := fun _ => none }
      baseReq [] "snippet" rfl rfl⟩

/-- C1 as stated is refuted: at this concrete input whose URL yields no video
id, an external service call (the video-snippet fetch) is still made. -/
theorem invalid_url_side_effect_counterexample :
    ({ baseEnv with extractVideoId := fun _ => none } : Env).extractVideoId baseReq.url
        = none ∧
      Ev.snippetFetch ∈
        (createYoutubeSummary { baseEnv with extractVideoId := fun _ => none }
          baseReq []).events := by
  constructor
  · rfl
  · decide

/-- C2: with a cached record for the video id and no privileged refresh flag,
the POST returns the cached record unchanged, performs no summarization call
and no write (the only event is the snippet fetch), and a second identical
POST against the resulting store returns the identical record again. -/
theorem cached_record_returned_unchanged (env : Env) (req : Req) (store : Store)
    (vid snip : String) (r : SummaryRecord)
    (hid : env.extractVideoId req.url = some vid)
    (hsnip : env.getVideoSnippetById (some vid) = .ok snip)
    (hfound : findByExternalId store vid = some r)
    (hrefresh : (req.refreshQuery && req.superadmin) = false) :
    (createYoutubeSummary env req store).result = .ok r ∧
      (createYoutubeSummary env req store).store = store ∧
      (createYoutubeSummary env req store).events = [Ev.snippetFetch] ∧
      (createYoutubeSummary env req
          (createYoutubeSummary env req store).store).result = .ok r := by
  have hrun : createYoutubeSummary env req store = ⟨.ok r, [Ev.snippetFetch], store⟩ := by
    simp [createYoutubeSummary, hid, hsnip, hfound, hrefresh]
  rw [hrun]
  exact ⟨rfl, rfl, rfl, by rw [hrun]⟩

theorem cached_record_returned_unchanged_witness :
    baseEnv.extractVideoId baseReq.url = some "vid123" ∧
      baseEnv.getVideoSnippetById (some "vid123") = .ok "snippet" ∧
      findByExternalId [cachedRec] "vid123" = some cachedRec ∧
      (baseReq.refreshQuery && baseReq.superadmin) = false ∧
      ((createYoutubeSummary baseEnv baseReq [cachedRec]).result = .ok cachedRec ∧
        (createYoutubeSummary baseEnv baseReq [cachedRec]).store = [cachedRec] ∧
        (createYoutubeSummary baseEnv baseReq [cachedRec]).events = [Ev.snippetFetch] ∧
        (createYoutubeSummary baseEnv baseReq
            (createYoutubeSummary baseEnv baseReq [cachedRec]).store).result =
          .ok cachedRec) :=
  ⟨rfl, rfl, by decide, rfl,
    cached_record_returned_unchanged baseEnv baseReq [cachedRec] "vid123" "snippet"
      cachedRec rfl rfl (by decide) rfl⟩

/-- C6: the rate limiter, invoked with duration 60 and limit 2, gates the
summarization call: whenever the LLM call event occurs, the limiter returned
true and the rate-limit check occurs strictly before the LLM call in the
event trace — so a request rejected by the limiter never reaches the
summarization call. -/
theorem rate_limit_gates_llm (env : Env) (req : Req) (store : Store) (s : String)
    (h : Ev.llmCall s ∈ (createYoutubeSummary env req store).events) :
    env.rateLimit 60 2 = true ∧
      ∃ pre post, (createYoutubeSummary env req store).events =
        pre ++ Ev.rateLimitCheck :: post ∧ Ev.llmCall s ∈ post := by
  rcases createYoutubeSummary_cases env req store with ⟨res, hrun⟩ | ⟨vid, snip, found, hrun⟩
  · rw [hrun] at h; simp at h
  · rw [hrun] at h ⊢
    rcases summarizePath_cases env req store vid snip found with
      ⟨e, hp⟩ | ⟨hrl, hp⟩ | ⟨ts, e, htr, hrl, hp⟩ | ⟨ts, payload, htr, hrl, hp⟩
    · rw [hp] at h; simp at h
    · rw [hp] at h; simp at h
    · rw [hp] at h ⊢
      simp at h
      subst h
      exact ⟨hrl, [Ev.snippetFetch, Ev.transcriptFetch],
        [Ev.llmCall (chunkOf env ts)], by simp, by simp⟩
    · rw [hp] at h ⊢
      simp at h
      subst h
      exact ⟨hrl, [Ev.snippetFetch, Ev.transcriptFetch],
        [Ev.llmCall (chunkOf env ts), Ev.upsert], by simp, by simp⟩

theorem rate_limit_gates_llm_witness :
    Ev.llmCall "[0s] Intro more\n[5s] Next part" ∈
        (createYoutubeSummary baseEnv baseReq []).events ∧
      (baseEnv.rateLimit 60 2 = true ∧
        ∃ pre post, (createYoutubeSummary baseEnv baseReq []).events =
          pre ++ Ev.rateLimitCheck :: post ∧
            Ev.llmCall "[0s] Intro more\n[5s] Next part" ∈ post) :=
  ⟨by decide, rate_limit_gates_llm baseEnv baseReq []
    "[0s] Intro more\n[5s] Next part" (by decide)⟩

theorem error_leaves_store (env : Env) (req : Req) (store : Store) (e : String)
    (h : (createYoutubeSummary env req store).result = .error e) :
    (createYoutubeSummary env req store).store = store ∧
      Ev.upsert ∉ (createYoutubeSummary env req store).events := by
  rcases createYoutubeSummary_cases env req store with ⟨res, hrun⟩ | ⟨vid, snip, found, hrun⟩
  · rw [hrun]; exact ⟨rfl, by simp⟩
  · rw [hrun]
    rcases summarizePath_cases env req store vid snip found with
      ⟨e', hp⟩ | ⟨_, hp⟩ | ⟨ts, e', _, _, hp⟩ | ⟨ts, payload, _, _, hp⟩
    · rw [hp]; exact ⟨rfl, by simp⟩
    · rw [hp]; exact ⟨rfl, by simp⟩
    · rw [hp]; exact ⟨rfl, by simp⟩
    · rw [hrun, hp] at h; simp at h

/-- C7: a parse failure of the LLM's structured tool-call arguments propagates
to the caller and no Summary Record is written; in general, every failing
request leaves the persisted store exactly as it was and performs no upsert,
the upsert being the last step of the flow. -/
theorem parse_failure_writes_nothing (env : Env) (req : Req) (store : Store)
    (vid snip : String) (ts : List TranscriptLine) (rawArgs usage e : String)
    (hid : env.extractVideoId req.url = some vid)
    (hsnip : env.getVideoSnippetById (some vid) = .ok snip)
    (hfound : findByExternalId store vid = none)
    (htr : env.transcribeVideo req.url = .ok ts)
    (hrl : env.rateLimit 60 2 = true)
    (hllm : env.chatModelCall (chunkOf env ts) = .ok (rawArgs, usage))
    (hparse : env.zodParseJSON rawArgs = .error e) :
    (createYoutubeSummary env req store).result = .error e ∧
      (createYoutubeSummary env req store).store = store ∧
      Ev.upsert ∉ (createYoutubeSummary env req store).events ∧
      (∀ env' req' store' e',
        (createYoutubeSummary env' req' store').result = .error e' →
          (createYoutubeSummary env' req' store').store = store' ∧
            Ev.upsert ∉ (createYoutubeSummary env' req' store').events) := by
  have hrun : createYoutubeSummary env req store =
      ⟨.error e,
        [.snippetFetch, .transcriptFetch, .rateLimitCheck, .llmCall (chunkOf env ts)],
        store⟩ := by
    simp [createYoutubeSummary, hid, hsnip, hfound, summarizePath, htr, hrl, hllm, hparse]
  refine ⟨by rw [hrun], by rw [hrun], by rw [hrun]; simp, ?_⟩
  intro env' req' store' e' h'
  exact error_leaves_store env' req' store' e' h'

theorem parse_failure_writes_nothing_witness :
    ({ baseEnv with zodParseJSON := fun _ => .error "bad json" } : Env).zodParseJSON
        "args" = .error "bad json" ∧
      ((createYoutubeSummary { baseEnv with zodParseJSON := fun _ => .error "bad json" }
            baseReq []).result = .error "bad json" ∧
        (createYoutubeSummary { baseEnv with zodParseJSON := fun _ => .error "bad json" }
            baseReq []).store = [] ∧
        Ev.upsert ∉
          (createYoutubeSummary { baseEnv with zodParseJSON := fun _ => .error "bad json" }
            baseReq []).events ∧
        (∀ env' req' store' e',
          (createYoutubeSummary env' req' store').result = .error e' →
            (createYoutubeSummary env' req' store').store = store' ∧
              Ev.upsert ∉ (createYoutubeSummary env' req' store').events)) :=
  ⟨rfl,
    parse_failure_writes_nothing { baseEnv with zodParseJSON := fun _ => .error "bad json" }
      baseReq [] "vid123" "snippet"
      [⟨"- Intro", 0⟩, ⟨"more", 1200⟩, ⟨"- Next part", 5000⟩]
      "args" "usage" "bad json" rfl rfl rfl rfl rfl rfl rfl⟩

theorem upsertById_replaces (store : Store) (p : SummaryRecord) :
    ∀ r ∈ upsertById store p.id p, r.id = p.id → r = p := by
  intro r hr hid
  unfold upsertById at hr
  by_cases h : store.any (fun x => x.id == p.id) = true
  · rw [if_pos h] at hr
    obtain ⟨ri, hmem, heq⟩ := List.mem_map.mp hr
    by_cases hi : (ri.id == p.id) = true
    · rw [if_pos hi] at heq
      exact heq.symm
    · rw [if_neg hi] at heq
      subst heq
      exact absurd (by simp [hid]) hi
  · rw [if_neg h] at hr
    rcases List.mem_append.mp hr with hin | hp2
    · exact absurd (List.any_eq_true.mpr ⟨r, hin, by simp [hid]⟩) h
    · simpa using hp2

/-- C8: on the write path, a record found under privileged refresh has its id
reused (with a non-empty stored id), otherwise the fresh cuid is minted; the
upsert replaces the row wholesale — the written record's `output` is rebuilt
from the new snippet and summary data, not merged with the old one — while
`externalId` and `type` coincide with the found record's key fields; and, in
general, the record at the upserted id after an upsert is exactly the payload. -/
theorem refresh_overwrites (env : Env) (req : Req) (store : Store)
    (vid snip : String) (ts : List TranscriptLine) (rawArgs usage data : String)
    (hid : env.extractVideoId req.url = some vid)
    (hsnip : env.getVideoSnippetById (some vid) = .ok snip)
    (htr : env.transcribeVideo req.url = .ok ts)
    (hrl : env.rateLimit 60 2 = true)
    (hllm : env.chatModelCall (chunkOf env ts) = .ok (rawArgs, usage))
    (hparse : env.zodParseJSON rawArgs = .ok data) :
    (∀ f, findByExternalId store vid = some f → f.id ≠ "" →
      (req.refreshQuery && req.superadmin) = true →
      createYoutubeSummary env req store =
        ⟨.ok ⟨f.id, vid, "youtube_summary", ⟨snip, data⟩, usage⟩,
          [.snippetFetch, .transcriptFetch, .rateLimitCheck, .llmCall (chunkOf env ts),
            .upsert],
          upsertById store f.id ⟨f.id, vid, "youtube_summary", ⟨snip, data⟩, usage⟩⟩ ∧
        f.externalId = vid ∧ f.type = "youtube_summary") ∧
    (findByExternalId store vid = none →
      createYoutubeSummary env req store =
        ⟨.ok ⟨env.cuid, vid, "youtube_summary", ⟨snip, data⟩, usage⟩,
          [.snippetFetch, .transcriptFetch, .rateLimitCheck, .llmCall (chunkOf env ts),
            .upsert],
          upsertById store env.cuid
            ⟨env.cuid, vid, "youtube_summary", ⟨snip, data⟩, usage⟩⟩) ∧
    (∀ (st : Store) (p r : SummaryRecord),
      r ∈ upsertById st p.id p → r.id = p.id → r = p) := by
  refine ⟨?_, ?_, ?_⟩
  · intro f hfound hfid hrefresh
    have hfound' : store.find?
        (fun r => r.type == "youtube_summary" && r.externalId == vid) = some f := hfound
    have hkey := List.find?_some hfound'
    simp only [Bool.and_eq_true, beq_iff_eq] at hkey
    refine ⟨?_, hkey.2, hkey.1⟩
    simp [createYoutubeSummary, hid, hsnip, hfound, hrefresh, summarizePath, htr, hrl,
      hllm, hparse, jsOrElse, hfid]
  · intro hnone
    simp [createYoutubeSummary, hid, hsnip, hnone, summarizePath, htr, hrl, hllm,
      hparse, jsOrElse]
  · intro st p r hr hid'
    exact upsertById_replaces st p r hr hid'

theorem refresh_overwrites_witness :
    findByExternalId [cachedRec] "vid123" = some cachedRec ∧
      cachedRec.id ≠ "" ∧
      (({ baseReq with refreshQuery := true, superadmin := true } : Req).refreshQuery &&
          ({ baseReq with refreshQuery := true, superadmin := true } : Req).superadmin)
        = true ∧
      (createYoutubeSummary baseEnv
            { baseReq with refreshQuery := true, superadmin := true } [cachedRec] =
          ⟨.ok ⟨cachedRec.id, "vid123", "youtube_summary", ⟨"snippet", "summary"⟩,
              "usage"⟩,
            [.snippetFetch, .transcriptFetch, .rateLimitCheck,
              .llmCall (chunkOf baseEnv
                [⟨"- Intro", 0⟩, ⟨"more", 1200⟩, ⟨"- Next part", 5000⟩]),
              .upsert],
            upsertById [cachedRec] cachedRec.id
              ⟨cachedRec.id, "vid123", "youtube_summary", ⟨"snippet", "summary"⟩,
                "usage"⟩⟩ ∧
        cachedRec.externalId = "vid123" ∧ cachedRec.type = "youtube_summary") :=
  ⟨by decide, by decide, rfl,
    (refresh_overwrites baseEnv { baseReq with refreshQuery := true, superadmin := true }
        [cachedRec] "vid123" "snippet"
        [⟨"- Intro", 0⟩, ⟨"more", 1200⟩, ⟨"- Next part", 5000⟩]
        "args" "usage" "summary" rfl rfl rfl rfl rfl rfl).1
      cachedRec (by decide) (by decide) rfl⟩

/-! Lemmas about the word-level tokenization model. -/

theorem splitWords_ne_nil (cs : List Char) : splitWords cs ≠ [] := by
  induction cs with
  | nil => simp [splitWords]
  | cons c cs ih =>
    by_cases hc : c = ' '
    · simp [splitWords, hc]
    · rcases h : splitWords cs with _ | ⟨w, ws⟩
      · exact absurd h ih
      · simp [splitWords, hc, h]

theorem splitWords_no_space (cs : List Char) :
    ∀ w ∈ splitWords cs, ' ' ∉ w := by
  induction cs with
  | nil =>
    intro w hw
    simp [splitWords] at hw
    simp [hw]
  | cons c cs ih =>
    intro w hw
    by_cases hc : c = ' '
    · simp only [splitWords, if_pos hc, List.mem_cons] at hw
      rcases hw with rfl | hw
      · simp
      · exact ih w hw
    · rcases h : splitWords cs with _ | ⟨w0, ws⟩
      · exact absurd h (splitWords_ne_nil cs)
      · simp only [splitWords, if_neg hc, h, List.mem_cons] at hw
        rcases hw with rfl | hw
        · intro hsp
          rcases List.mem_cons.mp hsp with heq | hmem
          · exact hc heq.symm
          · exact ih w0 (by simp [h]) hmem
        · exact ih w (by simp [h, hw])

theorem splitWords_single (w : List Char) (hw : ' ' ∉ w) : splitWords w = [w] := by
  induction w with
  | nil => rfl
  | cons c w' ih =>
    have hc : ¬ c = ' ' := by
      intro hh
      subst hh
      exact hw (List.mem_cons_self _ _)
    have hw' : ' ' ∉ w' := fun hh => hw (List.mem_cons_of_mem c hh)
    simp [splitWords, hc, ih hw']

theorem splitWords_append_space (w rest : List Char) (hw : ' ' ∉ w) :
    splitWords (w ++ ' ' :: rest) = w :: splitWords rest := by
  induction w with
  | nil => simp [splitWords]
  | cons c w' ih =>
    have hc : ¬ c = ' ' := by
      intro hh
      subst hh
      exact hw (List.mem_cons_self _ _)
    have hw' : ' ' ∉ w' := fun hh => hw (List.mem_cons_of_mem c hh)
    simp [splitWords, hc, ih hw']

theorem splitWords_joinWords (c : List (List Char)) (hne : c ≠ [])
    (hsp : ∀ w ∈ c, ' ' ∉ w) : splitWords (joinWords c) = c := by
  induction c with
  | nil => exact absurd rfl hne
  | cons w c' ih =>
    cases c' with
    | nil => exact splitWords_single w (hsp w (by simp))
    | cons w2 c'' =>
      have h1 : joinWords (w :: w2 :: c'') = w ++ ' ' :: joinWords (w2 :: c'') := rfl
      rw [h1, splitWords_append_space w _ (hsp w (by simp)),
        ih (by simp) (fun x hx => hsp x (List.mem_cons_of_mem w hx))]

theorem chunkList_mem_length_aux {α : Type} (n : Nat) :
    ∀ (k : Nat) (l : List α), l.length ≤ k → ∀ c ∈ chunkList n l, c.length ≤ n + 1 := by
  intro k
  induction k with
  | zero =>
    intro l hl c hc
    have hnil : l = [] := List.length_eq_zero.mp (Nat.le_zero.mp hl)
    subst hnil
    simp [chunkList] at hc
  | succ k ih =>
    intro l hl c hc
    cases l with
    | nil => simp [chunkList] at hc
    | cons a tl =>
      simp only [chunkList] at hc
      rcases List.mem_cons.mp hc with rfl | hc2
      · simp only [List.length_cons, List.length_take]
        omega
      · refine ih (tl.drop n) ?_ c hc2
        simp only [List.length_drop]
        simp only [List.length_cons] at hl
        omega

theorem chunkList_length_le {α : Type} (n : Nat) (l : List α) (c : List α)
    (hc : c ∈ chunkList n l) : c.length ≤ n + 1 :=
  chunkList_mem_length_aux n l.length l le_rfl c hc

theorem splitTextByToken_fits (b : Nat) (t : String) (h : tokenCount t ≤ b) :
    splitTextByToken b t = [t] := by
  simp [splitTextByToken, h]

theorem splitTextByToken_head_tokenCount (b : Nat) (hb : 1 ≤ b) (t : String) :
    tokenCount ((splitTextByToken b t).headD "") ≤ b := by
  unfold splitTextByToken
  by_cases hf : tokenCount t ≤ b
  · simp [hf]
  · rw [if_neg hf]
    rcases h : splitWords t.data with _ | ⟨w, ws⟩
    · exact absurd h (splitWords_ne_nil t.data)
    · have hchunk : chunkList (b - 1) (w :: ws) =
          (w :: ws.take (b - 1)) :: chunkList (b - 1) (ws.drop (b - 1)) := by
        simp [chunkList]
      rw [hchunk]
      simp only [List.map_cons, List.headD_cons]
      have hsp : ∀ x ∈ w :: ws.take (b - 1), ' ' ∉ x := by
        intro x hx
        rcases List.mem_cons.mp hx with rfl | hx2
        · exact splitWords_no_space t.data x (by simp [h])
        · refine splitWords_no_space t.data x ?_
          rw [h]
          exact List.mem_cons_of_mem w (List.take_subset _ _ hx2)
      have hcount : tokenCount (String.mk (joinWords (w :: ws.take (b - 1)))) =
          (w :: ws.take (b - 1)).length := by
        unfold tokenCount
        rw [show (String.mk (joinWords (w :: ws.take (b - 1)))).data =
            joinWords (w :: ws.take (b - 1)) from rfl]
        rw [splitWords_joinWords _ (by simp) hsp]
      rw [hcount]
      simp [List.length_take]
      omega

/-- C9: the text sent to the summarization call is the first chunk of the
assembled transcript split under the token budget `0.7 · maxTokens` (modelled
as `7·maxTokens/10`): whenever the LLM call event occurs, its input is exactly
that first chunk and its token count is within the budget
(`10 · count ≤ 7 · maxTokens`); moreover a text whose token count already fits
any budget is returned by the splitter as the single unchanged chunk. -/
theorem llm_input_is_bounded_first_chunk (env : Env) (req : Req) (store : Store)
    (s : String) (hmax : 2 ≤ env.maxTokens)
    (h : Ev.llmCall s ∈ (createYoutubeSummary env req store).events) :
    (∃ ts, env.transcribeVideo req.url = .ok ts ∧ s = chunkOf env ts) ∧
      10 * tokenCount s ≤ 7 * env.maxTokens ∧
      (∀ b t, tokenCount t ≤ b → splitTextByToken b t = [t]) := by
  have hbudget : 1 ≤ tokenBudget env.maxTokens := by
    unfold tokenBudget
    omega
  have hbound : ∀ ts : List TranscriptLine,
      10 * tokenCount (chunkOf env ts) ≤ 7 * env.maxTokens := by
    intro ts
    have hc : tokenCount (chunkOf env ts) ≤ tokenBudget env.maxTokens :=
      splitTextByToken_head_tokenCount (tokenBudget env.maxTokens) hbudget
        (assembleText ts)
    unfold tokenBudget at hc
    omega
  rcases createYoutubeSummary_cases env req store with ⟨res, hrun⟩ | ⟨vid, snip, found, hrun⟩
  · rw [hrun] at h
    simp at h
  · rw [hrun] at h
    rcases summarizePath_cases env req store vid snip found with
      ⟨e, hp⟩ | ⟨_, hp⟩ | ⟨ts, e, htr, _, hp⟩ | ⟨ts, payload, htr, _, hp⟩
    · rw [hp] at h; simp at h
    · rw [hp] at h; simp at h
    · rw [hp] at h
      simp at h
      subst h
      exact ⟨⟨ts, htr, rfl⟩, hbound ts, fun b t ht => splitTextByToken_fits b t ht⟩
    · rw [hp] at h
      simp at h
      subst h
      exact ⟨⟨ts, htr, rfl⟩, hbound ts, fun b t ht => splitTextByToken_fits b t ht⟩

theorem llm_input_is_bounded_first_chunk_witness :
    2 ≤ baseEnv.maxTokens ∧
      Ev.llmCall "[0s] Intro more\n[5s] Next part" ∈
        (createYoutubeSummary baseEnv baseReq []).events ∧
      ((∃ ts, baseEnv.transcribeVideo baseReq.url = .ok ts ∧
          "[0s] Intro more\n[5s] Next part" = chunkOf baseEnv ts) ∧
        10 * tokenCount "[0s] Intro more\n[5s] Next part" ≤ 7 * baseEnv.maxTokens ∧
        (∀ b t, tokenCount t ≤ b → splitTextByToken b t = [t])) :=
  ⟨by decide, by decide,
    llm_input_is_bounded_first_chunk baseEnv baseReq []
      "[0s] Intro more\n[5s] Next part" (by decide) (by decide)⟩

end YoutubeSummary
